import Mathlib

/-!
Verification of the `rheelab_commons` text-extraction and note-alignment
utilities (`project_ryland/data_utils`).

Python strings are modelled as `List Char` with character (code-point)
indices, matching Python `str` indexing.  Compiled regular expressions in
the source are always literal keywords, alternations of escaped literal
keywords, or the empty pattern, so they are modelled by explicit substring
search.  Missing values (`None` / `NaN` / `NaT`) are modelled by `Option`;
exceptions by `Except`.
-/

namespace Rheelab

/-- Whitespace characters recognised by Python `str.strip` and the regex
class in `re.sub(r"^[:\s]+", ...)`, restricted to the ASCII range that the
clinical notes use. -/
def isPySpace (c : Char) : Bool :=
  c == ' ' || c == '\t' || c == '\n' || c == '\x0d' || c == '\x0b' || c == '\x0c'

/-- Python `str.strip()`: drop leading and trailing whitespace. -/
def pyStrip (s : List Char) : List Char :=
  ((s.dropWhile isPySpace).reverse.dropWhile isPySpace).reverse

/-- Does the literal keyword `k` occur in `text` starting exactly at
character index `i`?  (The empty keyword occurs at every index.) -/
def occursAt (k text : List Char) (i : Nat) : Bool :=
  (text.drop i).take k.length == k

/-- Model of `re.Pattern.search(text, pos)` for a pattern that is an
alternation of escaped literal keywords, `"|".join(re.escape(k) for k in kws)`.
Returns the start index of the leftmost match at or after `pos`.  An empty
keyword list joins to the empty pattern, which matches (the empty string) at
every index `pos ≤ i ≤ len`. -/
def reSearch (kws : List (List Char)) (text : List Char) (pos : Nat) : Option Nat :=
  ((List.range (text.length + 1)).filter
    (fun i => decide (pos ≤ i) && (kws.isEmpty || kws.any (fun k => occursAt k text i)))).head?

/-- One step list of `re.Pattern.finditer` match-start positions for a
literal keyword, scanning from `pos`; after a match at `i` the scan resumes
at `i + len(k)` (or `i + 1` for an empty keyword, as Python advances past
empty matches).  `fuel` bounds the recursion and is chosen large enough to
never run out. -/
def findIterFrom : Nat → List Char → List Char → Nat → List Nat
  | 0, _, _, _ => []
  | fuel + 1, k, text, pos =>
    match reSearch [k] text pos with
    | none => []
    | some i => i :: findIterFrom fuel k text (i + max k.length 1)

/-- All non-overlapping match-start positions of literal keyword `k` in
`text` (model of `re.compile(re.escape(k)).finditer(text)`). -/
def finditer (k text : List Char) : List Nat :=
  findIterFrom (text.length + 2) k text 0

/-- Stable insertion of `x` into a list sorted by `le`: `x` goes before the
first element it compares `le` to, so ties keep the earlier-inserted element
first.  Together with `sortBy` this models Python's stable `sorted` /
pandas' stable lexicographic `sort_values`. -/
def insSorted (le : α → α → Bool) (x : α) : List α → List α
  | [] => [x]
  | y :: ys => if le x y then x :: y :: ys else y :: insSorted le x ys

/-- Stable sort by the boolean relation `le` (insertion sort). -/
def sortBy (le : α → α → Bool) : List α → List α
  | [] => []
  | x :: xs => insSorted le x (sortBy le xs)

/-- Fuel-bounded recursion for `dedupByKey`; the fuel only serves to make
the recursion structural and is always at least the list length, so the
exhausted case is never reached. -/
def dedupByKeyAux [DecidableEq κ] (key : α → κ) : Nat → List α → List α
  | _, [] => []
  | 0, _ :: _ => []
  | fuel + 1, a :: as => a :: dedupByKeyAux key fuel (as.filter (fun x => decide ¬(key x = key a)))

/-- Drop later rows whose `key` already appeared, keeping the first row of
each key (model of `DataFrame.drop_duplicates(subset=key, keep='first')`). -/
def dedupByKey [DecidableEq κ] (key : α → κ) (l : List α) : List α :=
  dedupByKeyAux key l.length l

/-- Drop later duplicates, keeping the first occurrence of each element
(model of `DataFrame.drop_duplicates()` over all columns). -/
def dedupKeepFirst [DecidableEq α] (l : List α) : List α :=
  dedupByKey (fun x => x) l

/-! ## `text_extraction_utils.py`: data of the extraction engine -/

/-- One raw extraction rule, an element of the `*_mappings_by_proc_desc`
registry dictionaries: keys `"start"`, `"end"`, `"condition"` and the
optional `"exclude_after"`. -/
structure RawMapping where
  start : List Char
  endKws : List (List Char)
  condition : Option String
  exclude_after : Option (List Char)
deriving DecidableEq

/-- A compiled rule as produced by `compile_mappings`: the `start_regex`
and `end_regex` patterns are alternations of escaped literals and are
represented by the keywords themselves; `exclude_regex` is compiled only
when `exclude_after` is truthy (present and non-empty). -/
structure CompiledMapping where
  start_keyword : List Char
  end_keywords : List (List Char)
  condition : Option String
  exclude_after : Option (List Char)
  exclude_regex : Option (List Char)
deriving DecidableEq

/-- Model of `compile_mappings`: compile every rule of a mapping list.
Compilation is total (never fails): the patterns are escaped literals. -/
def compileOne (m : RawMapping) : CompiledMapping :=
  { start_keyword := m.start
    end_keywords := m.endKws
    condition := m.condition
    exclude_after := m.exclude_after
    exclude_regex :=
      match m.exclude_after with
      | some s => if s.isEmpty then none else some s
      | none => none }

/-- `compile_mappings(mappings)`: the compiled rule list. -/
def compile_mappings (mappings : List RawMapping) : List CompiledMapping :=
  mappings.map compileOne

/-- A recorded start-keyword match, an element of the list built by
`find_matches`: the section label, the offset just after the start match
(`match.end()`), and the rule data the scanner needs. -/
structure MatchRec where
  sectionLabel : List Char
  start_pos : Nat
  end_keywords : List (List Char)
  condition : Option String
  exclude_regex : Option (List Char)
deriving DecidableEq

/-- The match record built in the body of the `find_matches` loops. -/
def mkMatchRec (m : CompiledMapping) (i : Nat) : MatchRec :=
  { sectionLabel := m.start_keyword
    start_pos := i + m.start_keyword.length
    end_keywords := m.end_keywords
    condition := m.condition
    exclude_regex := m.exclude_regex }

/-- Inner loop of `find_matches` over the `finditer` occurrences of one
rule's start keyword, threading the global `match_count`: when
`mapping_type == "imaging"` and a match was already kept, the occurrence is
skipped (`continue`). -/
def findMatchesInner (mapping_type : Option String) (m : CompiledMapping) :
    List Nat → Nat → List MatchRec × Nat
  | [], count => ([], count)
  | i :: rest, count =>
    if mapping_type == some "imaging" && decide (1 ≤ count) then
      findMatchesInner mapping_type m rest count
    else
      let pr := findMatchesInner mapping_type m rest (count + 1)
      (mkMatchRec m i :: pr.1, pr.2)

/-- Outer loop of `find_matches` over the compiled rules, threading
`match_count` across rules. -/
def findMatchesOuter (mapping_type : Option String) (text : List Char) :
    List CompiledMapping → Nat → List MatchRec
  | [], _ => []
  | m :: rest, count =>
    let pr := findMatchesInner mapping_type m (finditer m.start_keyword text) count
    pr.1 ++ findMatchesOuter mapping_type text rest pr.2

/-- Model of `find_matches(input_text, compiled_mappings, mapping_type)`:
collect all start-keyword matches (with the imaging single-match rule), then
return them sorted by `start_pos` (Python's stable `sorted`). -/
def find_matches (input_text : List Char) (compiled : List CompiledMapping)
    (mapping_type : Option String) : List MatchRec :=
  sortBy (fun a b => decide (a.start_pos ≤ b.start_pos))
    (findMatchesOuter mapping_type input_text compiled 0)

/-- The match discovery order of `find_matches` before sorting and without
the imaging filter: rules in list order, occurrences in document order. -/
def allStartMatches (text : List Char) (compiled : List CompiledMapping) : List MatchRec :=
  compiled.flatMap (fun m => (finditer m.start_keyword text).map (mkMatchRec m))

/-- An extracted segment with its source offsets; `extract_segments` slices
`input_text[start_pos:end_pos]`, so the offsets are present in the source
even though only the cleaned text is returned. -/
structure RawSeg where
  sectionLabel : List Char
  text : List Char
  startPos : Nat
  endPos : Nat
deriving DecidableEq

/-- A returned segment dictionary `{"SECTION": ..., "SECTION_TEXT": ...}`. -/
structure Segment where
  SECTION : List Char
  SECTION_TEXT : List Char
deriving DecidableEq

/-- The `end_pos` computation of `extract_segments`: default is the text
length, but the (always truthy) compiled `end_regex` is searched from
`start_pos` and a found match start becomes `end_pos`. -/
def endPosOf (text : List Char) (m : MatchRec) : Nat :=
  match reSearch m.end_keywords text m.start_pos with
  | some i => i
  | none => text.length

/-- The exclusion test of `extract_segments`:
`condition == "exclude" and exclude_regex` and then
`exclude_regex.search(input_text, start_pos, end_pos)` found a match
(Python bounds the search to `input_text[:end_pos]`). -/
def skipByExclude (text : List Char) (m : MatchRec) (end_pos : Nat) : Bool :=
  m.condition == some "exclude" &&
    (match m.exclude_regex with
     | some k => (reSearch [k] (text.take end_pos) m.start_pos).isSome
     | none => false)

/-- Cleaning of an extracted slice: `re.sub(r"^[:\s]+", "", t)` then
`t.strip()`. -/
def cleanText (s : List Char) : List Char :=
  pyStrip (s.dropWhile (fun c => c == ':' || isPySpace c))

/-- The sweep loop of `extract_segments` over the sorted matches, tracking
`current_pos`: overlapping matches are skipped, excluded segments are
discarded without advancing `current_pos`, emitted segments advance
`current_pos` to their `end_pos`. -/
def extractLoop (text : List Char) : List MatchRec → Nat → List RawSeg
  | [], _ => []
  | m :: rest, current_pos =>
    if m.start_pos < current_pos then extractLoop text rest current_pos
    else if skipByExclude text m (endPosOf text m) then extractLoop text rest current_pos
    else
      { sectionLabel := m.sectionLabel
        text := cleanText ((text.drop m.start_pos).take (endPosOf text m - m.start_pos))
        startPos := m.start_pos
        endPos := endPosOf text m } :: extractLoop text rest (endPosOf text m)

/-- Model of `extract_segments(input_text, matches)`: run the sweep; if it
emitted nothing, return the single `"ENTIRE NOTE"` fallback segment with the
stripped input text. -/
def extract_segments (input_text : List Char) (ms : List MatchRec) : List Segment :=
  let extracted := extractLoop input_text ms 0
  if extracted.isEmpty then
    [{ SECTION := "ENTIRE NOTE".data, SECTION_TEXT := pyStrip input_text }]
  else
    extracted.map (fun s => { SECTION := s.sectionLabel, SECTION_TEXT := s.text })

/-! ## `keyword_mappings.py`: the mapping registry (configuration data) -/

/-- A registry rule with no condition (`"condition": None`). -/
def rule (s : String) (es : List String) : RawMapping :=
  { start := s.data, endKws := es.map String.data, condition := none, exclude_after := none }

/-- A registry rule with `"condition": "exclude"` and an `"exclude_after"`
keyword. -/
def ruleEx (s : String) (es : List String) (ex : String) : RawMapping :=
  { start := s.data, endKws := es.map String.data
    condition := some "exclude", exclude_after := some ex.data }

/-- The `image_mappings_by_proc_desc` dictionary (insertion order kept). -/
def image_mappings_by_proc_desc : List (String × List RawMapping) :=
  [("*",
    [rule "IMPRESSION:" ["END IMPRESSION", "This report was electronically signed"]])]

/-- The `progress_note_mappings_by_proc_desc` dictionary. -/
def progress_note_mappings_by_proc_desc : List (String × List RawMapping) :=
  [("Progress Note",
    [rule "EXAM:" ["DATA:", "MRI"],
     rule "EXAMINATION" ["LABORATORY", "ASSESSMENT AND PLAN"],
     rule "PHYSICAL EXAM"
       ["LABORATORY", "IMAGING", "IMPRESSION AND PLAN", "LABS",
        "RADIOGRAPHIC EXAMINATION", "Radiology", "PLAN", "LAB RESULT",
        "IMPRESSION", "ASSESSMENT/PLAN"],
     rule "Physical Exam" ["TEST", "Results", "Labs", "Blood Draw", "LABORATORY"],
     rule "Physical exam" ["Lab Results"],
     rule "Examination" ["Data Review", "Prior Work up", "Assessment and Plan"]])]

/-- The `pathology_mappings_by_proc_desc` dictionary. -/
def pathology_mappings_by_proc_desc : List (String × List RawMapping) :=
  [("SURGICAL PATHOLOGY",
    [rule "INTERPRETATION" ["TEST INFORMATION", "Final Diagnosis", "Prior Results"],
     rule "FINAL PATHOLOGIC DIAGNOSIS" ["Electronically Signed Out"],
     rule "PATHOLOGIC DIAGNOSIS" ["CLINICAL DATA"],
     rule "FINAL DIAGNOSIS" ["GROSS DESCRIPTION", "Final Diagnosis"],
     rule "DIAGNOSIS" ["Gross Description", "Final Diagnosis"],
     ruleEx "Diagnosis" ["Gross Description"] "CLINICAL DATA",
     rule "Diagnosis" ["Electronically Signed Out"],
     rule "Final Diagnosis" ["Electronically Signed Out"]]),
   ("ANATOMIC PATHOLOGY",
    [rule "PATHOLOGIC DIAGNOSIS" ["CLINICAL DATA"],
     rule "FINAL PATHOLOGIC DIAGNOSIS" ["Electronically Signed Out"],
     rule "FINAL DIAGNOSIS" ["Clinical History"],
     rule "RESULTS" ["REFERENCES"],
     rule "INTERPRETATION" ["CLINICAL DATA"],
     rule "Diagnosis" ["Electronically Signed Out"],
     ruleEx "DIAGNOSIS" ["Gross Description"] "CLINICAL DATA",
     rule "Final Diagnosis" ["Clinical History:"]]),
   ("FLOW CYTOMETRY",
    [rule "INTERPRETATION" ["By his/her signature", "These tests were developed"]]),
   ("OUTSIDE PATHOLOGY REVIEW",
    [rule "PATHOLOGIC DIAGNOSIS" ["CLINICAL DATA"],
     rule "INTEGRATED DIAGNOSIS" ["Electronically Signed"]]),
   ("OTHER PATHOLOGY RESULTS",
    [rule "DIAGNOSIS" ["CLINICAL DATA"],
     rule "PATHOLOGIC DIAGNOSIS" ["CLINICAL DATA"],
     rule "FINAL DIAGNOSIS" ["GROSS DESCRIPTION"],
     rule "CYTOLOGIC DIAGNOSIS" [],
     rule "Final Diagnosis" ["Clinical History"],
     rule "INTERPRETATION" ["Final Diagnosis"],
     rule "RESULT" ["Final Diagnosis"],
     rule "Result" ["Final Diagnosis"]]),
   ("PROGRESS NOTES",
    [rule "EXAMINATION" ["LABORATORY", "ASSESSMENT AND PLAN"],
     rule "PHYSICAL EXAM"
       ["LABORATORY", "IMAGING", "IMPRESSION AND PLAN", "LABS",
        "RADIOGRAPHIC EXAMINATION", "Radiology", "PLAN", "LAB RESULT",
        "IMPRESSION", "ASSESSMENT/PLAN"],
     rule "Physical Exam" ["TEST", "Results", "Labs", "Blood Draw", "LABORATORY"],
     rule "Physical exam" ["Lab Results"],
     rule "Examination" ["Data Review", "Prior Work up", "Assessment and Plan"]])]

/-! ## `get_mappings` and `extract_text` -/

/-- Python exceptions raised by the extraction pipeline. -/
inductive PyError where
  | valueError (msg : String)
  | typeError (msg : String)
deriving DecidableEq

/-- Dictionary key lookup (`mapping_dict[proc_desc]`), insertion order. -/
def lookupKey (d : List (String × List RawMapping)) (k : String) : Option (List RawMapping) :=
  (d.find? (fun p => p.1 == k)).map (fun p => p.2)

/-- Case-insensitive substring test: models
`re.search(key, proc_desc, flags=re.IGNORECASE)` for the registry keys,
which contain no regex metacharacters. -/
def ciSubstr (key procDesc : String) : Bool :=
  (List.range (procDesc.data.length + 1)).any
    (fun i => occursAt (key.data.map Char.toLower) (procDesc.data.map Char.toLower) i)

/-- The soft-match test of `get_mappings`:
`key == "*" or re.search(key, proc_desc, flags=re.IGNORECASE)`. -/
def softKeyMatches (key procDesc : String) : Bool :=
  key == "*" || ciSubstr key procDesc

/-- Model of `get_mappings(proc_desc, mapping_type, match_type)`: select the
registry by `mapping_type`, then look the rules up by exact key (`"hard"`)
or by the first soft-matching key with a `"*"` fallback (`"soft"`). -/
def get_mappings (proc_desc : String) (mapping_type : String)
    (match_type : String) : Except PyError (List RawMapping) := do
  let mapping_dict ←
    if mapping_type == "pathology" then pure pathology_mappings_by_proc_desc
    else if mapping_type == "imaging" then pure image_mappings_by_proc_desc
    else if mapping_type == "progress" then pure progress_note_mappings_by_proc_desc
    else throw (PyError.valueError
      "mapping_type must be \"pathology\" or \"imaging\" or \"progress\"")
  if match_type == "hard" then
    match lookupKey mapping_dict proc_desc with
    | none => throw (PyError.valueError ("Unknown PROC_DESC: " ++ proc_desc))
    | some v => pure v
  else if match_type == "soft" then
    match mapping_dict.find? (fun p => softKeyMatches p.1 proc_desc) with
    | some p => pure p.2
    | none =>
      match lookupKey mapping_dict "*" with
      | some v => pure v
      | none => throw (PyError.valueError ("No soft match found for PROC_DESC: " ++ proc_desc))
  else
    throw (PyError.valueError "match_type must be either 'hard' or 'soft'")

/-- Model of `extract_text(input_text, proc_desc, mapping_type, match_type,
fallback)`.  `input_text = none` models a `NaN` cell (`pd.isna` true).  When
the text is absent and a `fallback` is given the function returns the
fallback segment; when the text is absent and no fallback is given the
source assigns the `"NO INPUT TEXT"` segment to `segments` but does *not*
return, so control falls through to the pipeline, whose first regex
operation on the absent text (`finditer` in `find_matches`) raises
`TypeError` — the dead assignment is overwritten before any return. -/
def extract_text (input_text : Option (List Char)) (proc_desc : String)
    (mapping_type : String) (match_type : String) (fallback : Option (List Char)) :
    Except PyError (List Segment) := do
  if input_text.isNone && fallback.isSome then
    return [{ SECTION := "FALLBACK TEXT".data, SECTION_TEXT := fallback.getD [] }]
  let mappings ← get_mappings proc_desc mapping_type match_type
  let compiled := compile_mappings mappings
  match input_text with
  | none => throw (PyError.typeError "expected string or bytes-like object")
  | some t =>
    let ms := find_matches t compiled (some mapping_type)
    return extract_segments t ms

/-! ## `note_filter_utils.py`: timeline alignment

Dates are modelled as day numbers (`Int`); a missing date (`NaT`, produced
by `ensure_naive_datetime` on unparseable input) is `none`.  Rows keep only
the columns the alignment logic reads; `rptText` stands for the remaining
note payload so distinct notes stay distinguishable. -/

/-- A progress-note row (`df_notes`): `DFCI_MRN`, `EVENT_DATE`, `RPT_TEXT`. -/
structure NoteRow where
  mrn : Nat
  eventDate : Option Int
  rptText : String
deriving DecidableEq

/-- A prepared treatment row (`df_tx` after `prep_treatment_data`):
`DFCI_MRN`, the collapsed `TREATMENT` column, `TPLAN_START_DT`, `BIRTH_DT`. -/
structure TxRow where
  mrn : Nat
  treatment : String
  tplanStart : Option Int
  birth : Option Int
deriving DecidableEq

/-- A diagnosis row (`df_dx`): `DFCI_MRN`, `DIAGNOSIS_DATE`. -/
structure DxRow where
  mrn : Nat
  diagnosisDate : Option Int
deriving DecidableEq

/-- Rounding of `days / 365.25` to a whole number of years:
`days/365.25 = 4*days/1461`, rounded to the nearest integer half-to-even as
`numpy`/`pandas.round` do.  Since `1461` is odd and the numerator is a
multiple of `4`, an exact half never occurs. -/
def roundYears (days : Int) : Int :=
  let a := 4 * days
  let q := a.ediv 1461
  let r := a.emod 1461
  if 2 * r < 1461 then q
  else if 1461 < 2 * r then q + 1
  else if q.emod 2 = 0 then q else q + 1

/-- Age in whole years between two optional dates
(`((d1 - d0).dt.days / 365.25).round()`, `NA` when either is missing). -/
def ageYears (d1 d0 : Option Int) : Option Int :=
  match d1, d0 with
  | some x, some y => some (roundYears (x - y))
  | _, _ => none

/-- A row of `df_merged = pd.merge(df_tx, df_dx, on="DFCI_MRN", how="left")`
with the derived `DX_AGE` column. -/
structure TxDxRow where
  tx : TxRow
  dx : Option DxRow
  dxAge : Option Int
deriving DecidableEq

/-- Left merge of the treatment and diagnosis tables on `DFCI_MRN`, with the
`DX_AGE` column (`DIAGNOSIS_DATE - BIRTH_DT` in rounded years) computed on
the merged frame. -/
def mergeTxDx (txs : List TxRow) (dxs : List DxRow) : List TxDxRow :=
  txs.flatMap (fun t =>
    if (dxs.filter (fun d => d.mrn == t.mrn)).isEmpty then
      [{ tx := t, dx := none, dxAge := none }]
    else (dxs.filter (fun d => d.mrn == t.mrn)).map
      (fun d => { tx := t, dx := some d, dxAge := ageYears d.diagnosisDate t.birth }))

/-- The group keys of `df.groupby("DFCI_MRN")`: distinct MRNs in ascending
order (pandas sorts group keys). -/
def mrnKeys (rows : List TxDxRow) : List Nat :=
  sortBy (fun a b => decide (a ≤ b)) (dedupKeepFirst (rows.map (fun r => r.tx.mrn)))

/-- `df_merged.groupby("DFCI_MRN")`: for each key, the rows of that MRN in
original order. -/
def groupByMrn (rows : List TxDxRow) : List (Nat × List TxDxRow) :=
  (mrnKeys rows).map (fun k => (k, rows.filter (fun r => r.tx.mrn == k)))

/-- The test `notes_group["EVENT_DATE"] >= dx_date`; a missing event date
(`NaT`) compares false. -/
def eventGE (n : NoteRow) (d : Int) : Bool :=
  match n.eventDate with
  | some e => decide (d ≤ e)
  | none => false

/-- A result row of `find_notes_after_diagnosis`: the combined dict
`{**dx_group.iloc[0].to_dict(), **first_note.to_dict()}` keeps the
diagnosis/treatment-side columns of the group's first row (`dxHead`) and
the note-side columns of the selected note, plus the derived
`DAYS_AFTER_DX` and `NOTE_TYPE` columns. -/
structure DxFinalRow where
  dxHead : TxDxRow
  note : NoteRow
  daysAfterDx : Option Int
  noteType : String
deriving DecidableEq

/-- The selection loop of `find_notes_after_diagnosis`: group the merged
frame by MRN; skip patients with no notes; and for each diagnosis date of
the group (a `NaT` date qualifies no note, since `EVENT_DATE >= NaT` is
all-false) pair the group's first row (`dx_group.iloc[0]`) with the first
note, in input row order, whose `EVENT_DATE >= dx_date`. -/
def dxSelections (dfNotes : List NoteRow) (dfTx : List TxRow) (dfDx : List DxRow) :
    List (TxDxRow × NoteRow) :=
  (groupByMrn (mergeTxDx dfTx dfDx)).flatMap (fun g =>
    if (dfNotes.map (fun n => n.mrn)).contains g.1 then
      match g.2 with
      | [] => []
      | h :: _ =>
        g.2.filterMap (fun row =>
          match row.dx with
          | some d =>
            match d.diagnosisDate with
            | some dd =>
              match ((dfNotes.filter (fun n => n.mrn == g.1)).filter
                  (fun n => eventGE n dd)).head? with
              | some firstNote => some (h, firstNote)
              | none => none
            | none => none
          | none => none)
    else [])

/-- The `DAYS_AFTER_DX` computation on a selected pair: the combined dict's
`DIAGNOSIS_DATE` comes from `dx_group.iloc[0]` (the group's first row). -/
def dxDays (pr : TxDxRow × NoteRow) : TxDxRow × NoteRow × Option Int :=
  (pr.1, pr.2,
    match pr.2.eventDate, pr.1.dx.bind (fun d => d.diagnosisDate) with
    | some e, some dd => some (e - dd)
    | _, _ => none)

/-- Model of `find_notes_after_diagnosis(df_notes, df_tx, df_dx,
earliest_data_date)`: run the selection loop, compute `DAYS_AFTER_DX`, keep
rows whose (first-of-group) diagnosis date is at or after the cutoff, drop
duplicates and tag the rows `"first after dx"`. -/
def find_notes_after_diagnosis (dfNotes : List NoteRow) (dfTx : List TxRow)
    (dfDx : List DxRow) (earliestDataDate : Int) : List DxFinalRow :=
  (dedupKeepFirst (((dxSelections dfNotes dfTx dfDx).map dxDays).filter
      (fun tr =>
        match tr.1.dx.bind (fun d => d.diagnosisDate) with
        | some dd => decide (earliestDataDate ≤ dd)
        | none => false))).map
    (fun tr =>
      { dxHead := tr.1, note := tr.2.1, daysAfterDx := tr.2.2, noteType := "first after dx" })

/-- A row of the three-way merge
`df_tx.merge(df_dx, on='DFCI_MRN', how='left').merge(df_notes, on='DFCI_MRN',
how='left')` with the derived `TX_START_AGE` column. -/
structure TxNoteRow where
  tx : TxRow
  dx : Option DxRow
  note : Option NoteRow
  txStartAge : Option Int
deriving DecidableEq

/-- The matching partners of a left merge: every matching right-side row,
or a single `none` (`NaN`-filled row) when there is no match. -/
def leftMergePartners (rs : List α) : List (Option α) :=
  if rs.isEmpty then [none] else rs.map some

/-- The chained left merges of `find_notes_after_treatment`, with
`TX_START_AGE` (`TPLAN_START_DT - BIRTH_DT` in rounded years) computed on
the merged frame. -/
def mergeTxDxNotes (txs : List TxRow) (dxs : List DxRow) (notes : List NoteRow) :
    List TxNoteRow :=
  txs.flatMap (fun t =>
    (leftMergePartners (dxs.filter (fun d => d.mrn == t.mrn))).flatMap (fun d =>
      (leftMergePartners (notes.filter (fun n => n.mrn == t.mrn))).map (fun n =>
        { tx := t, dx := d, note := n, txStartAge := ageYears t.tplanStart t.birth })))

/-- The `DAYS_NOTE_TO_TX_START` column:
`(TPLAN_START_DT - EVENT_DATE).abs().dt.days`, `NA` when either date is
missing. -/
def daysNoteToTxStart (r : TxNoteRow) : Option Int :=
  match r.tx.tplanStart, r.note.bind (fun n => n.eventDate) with
  | some tp, some e => some |tp - e|
  | _, _ => none

/-- The `DATE_DIFF_{X}_DAYS_OFFSET` column: distance in days between
`TPLAN_START_DT + X` and `EVENT_DATE`, `NA` when either date is missing. -/
def distToXDays (x : Int) (r : TxNoteRow) : Option Int :=
  match r.tx.tplanStart, r.note.bind (fun n => n.eventDate) with
  | some tp, some e => some |tp + x - e|
  | _, _ => none

/-- Comparison on optional integers with `none` sorting last, as pandas
places `NA`/`NaT` last when sorting. -/
def optIntLe (a b : Option Int) : Bool :=
  match a, b with
  | some x, some y => decide (x ≤ y)
  | some _, none => true
  | none, some _ => false
  | none, none => true

/-- Strict version of `optIntLe`. -/
def optIntLt (a b : Option Int) : Bool :=
  match a, b with
  | some x, some y => decide (x < y)
  | some _, none => true
  | _, none => false
  | none, some _ => false

/-- The `drop_duplicates` subset key of `find_notes_after_treatment`:
`['DFCI_MRN', 'TREATMENT', 'TPLAN_START_DT']`. -/
def keyOf (r : TxNoteRow) : Nat × String × Option Int :=
  (r.tx.mrn, r.tx.treatment, r.tx.tplanStart)

/-- Lexicographic strict comparison of character lists by code point, the
order pandas uses to sort a column of Python strings. -/
def charListLt : List Char → List Char → Bool
  | [], [] => false
  | [], _ :: _ => true
  | _ :: _, [] => false
  | a :: as, b :: bs => a < b || (a == b && charListLt as bs)

/-- Strict lexicographic comparison of the dedup keys (MRN, then treatment
string, then treatment start date with missing dates last). -/
def keyLt (j k : Nat × String × Option Int) : Bool :=
  decide (j.1 < k.1) ||
    (decide (j.1 = k.1) &&
      (charListLt j.2.1.data k.2.1.data ||
        (decide (j.2.1 = k.2.1) && optIntLt j.2.2 k.2.2)))

/-- The total preorder used by
`sort_values(['DFCI_MRN', 'TREATMENT', 'TPLAN_START_DT', dist])` (stable
lexicographic sort): key strictly first, then the distance column. -/
def lexLeBy (dist : TxNoteRow → Option Int) (a b : TxNoteRow) : Bool :=
  keyLt (keyOf a) (keyOf b) ||
    (decide (keyOf a = keyOf b) && optIntLe (dist a) (dist b))

/-- The `closest_start` block of `find_notes_after_treatment`: stable sort
by key and `DAYS_NOTE_TO_TX_START`, keep the first row per key, then keep
only rows with `DAYS_NOTE_TO_TX_START <= days_diff_wobble` (an `NA`
distance compares false). -/
def closest_start (days_diff_wobble : Int) (rows : List TxNoteRow) : List TxNoteRow :=
  (dedupByKey keyOf (sortBy (lexLeBy daysNoteToTxStart) rows)).filter
    (fun r =>
      match daysNoteToTxStart r with
      | some d => decide (d ≤ days_diff_wobble)
      | none => false)

/-- The `closest_to_x_days` block: stable sort by key and the
`DATE_DIFF_{X}_DAYS_OFFSET` column, keep the first row per key — with no
distance cutoff. -/
def closest_to_x_days (x : Int) (rows : List TxNoteRow) : List TxNoteRow :=
  dedupByKey keyOf (sortBy (lexLeBy (distToXDays x)) rows)

/-- The `days_post_tx` defaulting: `60` days when `None` is supplied. -/
def postTxDays (days_post_tx : Option Int) : Int :=
  match days_post_tx with
  | none => 60
  | some x => x

/-- A tagged output row of `find_notes_after_treatment` (`NOTE_TYPE` set). -/
structure TxFinalRow where
  row : TxNoteRow
  noteType : String
deriving DecidableEq

/-- Model of `find_notes_after_treatment(df_notes, df_tx, df_dx,
days_diff_wobble, days_post_tx)`: the within-wobble rows around treatment
start concatenated with the closest-to-`X`-days-post-treatment rows. -/
def find_notes_after_treatment (dfNotes : List NoteRow) (dfTx : List TxRow)
    (dfDx : List DxRow) (days_diff_wobble : Int) (days_post_tx : Option Int) :
    List TxFinalRow :=
  let x := postTxDays days_post_tx
  let joined := mergeTxDxNotes dfTx dfDx dfNotes
  (closest_start days_diff_wobble joined).map
      (fun r => { row := r
                  noteType := "within +/- " ++ toString days_diff_wobble ++ " days of tx" })
    ++ (closest_to_x_days x joined).map
      (fun r => { row := r
                  noteType := "closest to " ++ toString x ++ " days since tx" })

/-! ## Basic lemmas about the search and sweep primitives -/

theorem reSearch_eq_some {kws : List (List Char)} {text : List Char} {pos i : Nat}
    (h : reSearch kws text pos = some i) : pos ≤ i ∧ i ≤ text.length := by
  unfold reSearch at h
  rw [List.head?_eq_some_iff] at h
  obtain ⟨ys, hys⟩ := h
  have hmem : i ∈ (List.range (text.length + 1)).filter
      (fun j => decide (pos ≤ j) && (kws.isEmpty || kws.any (fun k => occursAt k text j))) := by
    rw [hys]; exact List.mem_cons_self _ _
  rw [List.mem_filter, List.mem_range] at hmem
  obtain ⟨hi, hp⟩ := hmem
  rw [Bool.and_eq_true, decide_eq_true_eq] at hp
  exact ⟨hp.1, Nat.lt_succ_iff.mp hi⟩

theorem endPosOf_ge {text : List Char} {m : MatchRec}
    (h : m.start_pos ≤ text.length) : m.start_pos ≤ endPosOf text m := by
  unfold endPosOf
  cases hs : reSearch m.end_keywords text m.start_pos with
  | none => exact h
  | some i => exact (reSearch_eq_some hs).1

theorem endPosOf_le (text : List Char) (m : MatchRec) : endPosOf text m ≤ text.length := by
  unfold endPosOf
  cases hs : reSearch m.end_keywords text m.start_pos with
  | none => exact Nat.le_refl _
  | some i => exact (reSearch_eq_some hs).2

theorem cur_le_endPosOf {text : List Char} {m : MatchRec} {cur : Nat}
    (hcur : cur ≤ text.length) (h1 : ¬ m.start_pos < cur) : cur ≤ endPosOf text m := by
  unfold endPosOf
  cases hs : reSearch m.end_keywords text m.start_pos with
  | none => exact hcur
  | some i => exact Nat.le_trans (Nat.le_of_not_lt h1) (reSearch_eq_some hs).1

theorem extractLoop_ge_cur (ms : List MatchRec) (text : List Char) (cur : Nat)
    (hcur : cur ≤ text.length) : ∀ s ∈ extractLoop text ms cur, cur ≤ s.startPos := by
  induction ms generalizing cur with
  | nil => intro s hs; simp [extractLoop] at hs
  | cons m rest ih =>
    intro s hs
    simp only [extractLoop] at hs
    by_cases h1 : m.start_pos < cur
    · rw [if_pos h1] at hs; exact ih cur hcur s hs
    · rw [if_neg h1] at hs
      by_cases h2 : skipByExclude text m (endPosOf text m) = true
      · rw [if_pos h2] at hs; exact ih cur hcur s hs
      · rw [if_neg h2] at hs
        rcases List.mem_cons.mp hs with hh | ht
        · subst hh; exact Nat.le_of_not_lt h1
        · exact Nat.le_trans (cur_le_endPosOf hcur h1)
            (ih (endPosOf text m) (endPosOf_le text m) s ht)

theorem extractLoop_pairwise (ms : List MatchRec) (text : List Char) (cur : Nat)
    (hcur : cur ≤ text.length) :
    (extractLoop text ms cur).Pairwise (fun a b => a.endPos ≤ b.startPos) := by
  induction ms generalizing cur with
  | nil => simp [extractLoop]
  | cons m rest ih =>
    simp only [extractLoop]
    by_cases h1 : m.start_pos < cur
    · rw [if_pos h1]; exact ih cur hcur
    · rw [if_neg h1]
      by_cases h2 : skipByExclude text m (endPosOf text m) = true
      · rw [if_pos h2]; exact ih cur hcur
      · rw [if_neg h2]
        rw [List.pairwise_cons]
        exact ⟨fun b hb => extractLoop_ge_cur rest text (endPosOf text m)
                 (endPosOf_le text m) b hb,
               ih (endPosOf text m) (endPosOf_le text m)⟩

theorem extractLoop_bounds (ms : List MatchRec) (text : List Char) (cur : Nat)
    (h : ∀ m ∈ ms, m.start_pos ≤ text.length) :
    ∀ s ∈ extractLoop text ms cur, s.startPos ≤ s.endPos := by
  induction ms generalizing cur with
  | nil => intro s hs; simp [extractLoop] at hs
  | cons m rest ih =>
    intro s hs
    have hm := h m (List.mem_cons_self _ _)
    have hrest : ∀ m' ∈ rest, m'.start_pos ≤ text.length :=
      fun m' hm' => h m' (List.mem_cons_of_mem _ hm')
    simp only [extractLoop] at hs
    by_cases h1 : m.start_pos < cur
    · rw [if_pos h1] at hs; exact ih cur hrest s hs
    · rw [if_neg h1] at hs
      by_cases h2 : skipByExclude text m (endPosOf text m) = true
      · rw [if_pos h2] at hs; exact ih cur hrest s hs
      · rw [if_neg h2] at hs
        rcases List.mem_cons.mp hs with hh | ht
        · subst hh; exact endPosOf_ge hm
        · exact ih (endPosOf text m) hrest s ht

/-! ## Lemmas about the imaging single-match filter -/

theorem findMatchesInner_skip (m : CompiledMapping) (occs : List Nat) (c : Nat)
    (hc : 1 ≤ c) : findMatchesInner (some "imaging") m occs c = ([], c) := by
  induction occs with
  | nil => rfl
  | cons i is ih =>
    have hcond : ((some "imaging" == some "imaging") && decide (1 ≤ c)) = true := by
      simp [hc]
    simp only [findMatchesInner]
    rw [if_pos hcond]
    exact ih

theorem findMatchesOuter_skip (text : List Char) (cms : List CompiledMapping) (c : Nat)
    (hc : 1 ≤ c) : findMatchesOuter (some "imaging") text cms c = [] := by
  induction cms with
  | nil => rfl
  | cons m rest ih =>
    simp only [findMatchesOuter, findMatchesInner_skip m _ c hc]
    exact ih

theorem findMatchesOuter_imaging (text : List Char) (cms : List CompiledMapping) :
    findMatchesOuter (some "imaging") text cms 0 = (allStartMatches text cms).take 1 := by
  induction cms with
  | nil => rfl
  | cons m rest ih =>
    simp only [findMatchesOuter, allStartMatches, List.flatMap_cons]
    cases hocc : finditer m.start_keyword text with
    | nil =>
      simp only [hocc, findMatchesInner, List.map_nil, List.nil_append]
      exact ih
    | cons i is =>
      have hcond : ¬ (((some "imaging" : Option String) == some "imaging")
          && decide (1 ≤ (0:Nat))) = true := by simp
      simp only [hocc, findMatchesInner]
      rw [if_neg hcond, findMatchesInner_skip m is 1 (Nat.le_refl 1)]
      simp [findMatchesOuter_skip text rest 1 (Nat.le_refl 1)]

/-! ## Claim theorems: extraction engine -/

/-- C1 (code evaluation at the failing input): the registry's
`OTHER PATHOLOGY RESULTS` list really contains the rule
`{start: "CYTOLOGIC DIAGNOSIS", end: []}`; its compiled end matcher is the
empty alternation, which — contrary to the claim that it never matches —
matches immediately at the start offset, so for the document
`"CYTOLOGIC DIAGNOSIS: malignant"` the match at offset 19 gets
`endPos = 19 = startOffset` (not `30`, the document length) and the emitted
segment text is empty instead of running to the end of the document. -/
theorem claim_C1_eval :
    rule "CYTOLOGIC DIAGNOSIS" []
      ∈ (lookupKey pathology_mappings_by_proc_desc "OTHER PATHOLOGY RESULTS").getD []
    ∧ (compileOne (rule "CYTOLOGIC DIAGNOSIS" [])).end_keywords = []
    ∧ reSearch [] "CYTOLOGIC DIAGNOSIS: malignant".data 19 = some 19
    ∧ find_matches "CYTOLOGIC DIAGNOSIS: malignant".data
        (compile_mappings [rule "CYTOLOGIC DIAGNOSIS" []]) (some "pathology")
        = [mkMatchRec (compileOne (rule "CYTOLOGIC DIAGNOSIS" [])) 0]
    ∧ extractLoop "CYTOLOGIC DIAGNOSIS: malignant".data
        [mkMatchRec (compileOne (rule "CYTOLOGIC DIAGNOSIS" [])) 0] 0
        = [{ sectionLabel := "CYTOLOGIC DIAGNOSIS".data, text := []
             startPos := 19, endPos := 19 }]
    ∧ "CYTOLOGIC DIAGNOSIS: malignant".data.length = 30 := by
  refine ⟨by decide, rfl, by decide, by decide, by decide, by decide⟩

/-- C2 (code evaluation at the failing input): with absent input text and no
fallback, `extract_text` does not return the `"NO INPUT TEXT"` fallback
segment — the assignment is dead because the branch lacks a `return`, and
the pipeline then applies `finditer` to the absent text, raising
`TypeError` — while the fallback-provided branch does return early. -/
theorem claim_C2_eval :
    extract_text none "SURGICAL PATHOLOGY" "pathology" "hard" none
      = Except.error (PyError.typeError "expected string or bytes-like object")
    ∧ extract_text none "SURGICAL PATHOLOGY" "pathology" "hard"
        (some "fallback from another column".data)
      = Except.ok [{ SECTION := "FALLBACK TEXT".data
                     SECTION_TEXT := "fallback from another column".data }] :=
  ⟨rfl, rfl⟩

/-- C3 (counterexample): scanning `"A B"` under imaging with the rule list
`[{start:"B"}, {start:"A"}]`, the scan of rule `"B"` finds offset 3 first
(rule order), so the `"A"` occurrence at the smaller document offset 1 —
which the unfiltered scan does record — is discarded: the kept match is not
the one with the smallest start offset across the scan. -/
theorem claim_C3_counterexample :
    (find_matches "A B".data (compile_mappings [rule "B" ["Z"], rule "A" ["Z"]])
      (some "imaging")).map (fun m => m.start_pos) = [3]
    ∧ (∃ m ∈ find_matches "A B".data (compile_mappings [rule "B" ["Z"], rule "A" ["Z"]]) none,
        m.start_pos = 1)
    ∧ ¬ (∃ m ∈ find_matches "A B".data
          (compile_mappings [rule "B" ["Z"], rule "A" ["Z"]]) (some "imaging"),
        m.start_pos = 1) := by
  refine ⟨by decide, by decide, by decide⟩

/-- C3 (amended): under category Imaging, `find_matches` keeps only the
first occurrence in scan order — rules in list order, occurrences in
document order within a rule — i.e. the first element of the discovery-order
match list, not the occurrence with the smallest document offset across all
rules. -/
theorem claim_C3_amended (text : List Char) (compiled : List CompiledMapping) :
    find_matches text compiled (some "imaging") = (allStartMatches text compiled).take 1 := by
  unfold find_matches
  rw [findMatchesOuter_imaging]
  cases h : allStartMatches text compiled with
  | nil => rfl
  | cons a as => simp [sortBy, insSorted]

/-- C5: the segments emitted by the segment sweep have pairwise
non-overlapping `[startPos, endPos)` ranges appearing in non-decreasing
document order (each segment ends at or before the next begins), for any
match list whose start offsets lie within the document — as every sorted
match list produced by `find_matches` does; a match whose start offset falls
inside the previously emitted segment is skipped by the sweep rather than
emitted overlapping. -/
theorem claim_C5 (text : List Char) (ms : List MatchRec)
    (h : ∀ m ∈ ms, m.start_pos ≤ text.length) :
    (extractLoop text ms 0).Pairwise (fun a b => a.endPos ≤ b.startPos)
    ∧ ∀ s ∈ extractLoop text ms 0, s.startPos ≤ s.endPos :=
  ⟨extractLoop_pairwise ms text 0 (Nat.zero_le _), extractLoop_bounds ms text 0 h⟩

/-- C5 witness: two overlapping matches on `"S ab E cd"`; the hypothesis and
the conclusion are discharged at this concrete input. -/
theorem claim_C5_witness :
    (∀ m ∈ ([⟨"S".data, 1, ["E".data], none, none⟩,
             ⟨"S".data, 3, ["E".data], none, none⟩] : List MatchRec),
      m.start_pos ≤ "S ab E cd".data.length)
    ∧ ((extractLoop "S ab E cd".data
          [⟨"S".data, 1, ["E".data], none, none⟩,
           ⟨"S".data, 3, ["E".data], none, none⟩] 0).Pairwise
            (fun a b => a.endPos ≤ b.startPos)
        ∧ ∀ s ∈ extractLoop "S ab E cd".data
            [⟨"S".data, 1, ["E".data], none, none⟩,
             ⟨"S".data, 3, ["E".data], none, none⟩] 0, s.startPos ≤ s.endPos) :=
  ⟨by decide, claim_C5 _ _ (by decide)⟩

/-- C6: for a match whose rule has condition `"exclude"` and a compiled
exclude matcher, if the exclude keyword occurs within
`[start_pos, end_pos)`, the sweep emits no segment for that match and
leaves `current_pos` unchanged, continuing with the remaining matches. -/
theorem claim_C6 (text : List Char) (m : MatchRec) (rest : List MatchRec) (cur : Nat)
    (k : List Char) (h1 : ¬ m.start_pos < cur) (h2 : m.condition = some "exclude")
    (h3 : m.exclude_regex = some k)
    (h4 : (reSearch [k] (text.take (endPosOf text m)) m.start_pos).isSome = true) :
    extractLoop text (m :: rest) cur = extractLoop text rest cur := by
  have hskip : skipByExclude text m (endPosOf text m) = true := by
    simp [skipByExclude, h2, h3, h4]
  simp only [extractLoop]
  rw [if_neg h1, if_pos hskip]

/-- C6 witness: the spec's own example — rule
`{start:"Diagnosis", end:["Gross Description"], condition:Exclude,
exclude_after:"CLINICAL DATA"}` on
`"Diagnosis: foo CLINICAL DATA bar Gross Description"` — is suppressed. -/
theorem claim_C6_witness :
    (reSearch ["CLINICAL DATA".data]
        ("Diagnosis: foo CLINICAL DATA bar Gross Description".data.take
          (endPosOf "Diagnosis: foo CLINICAL DATA bar Gross Description".data
            ⟨"Diagnosis".data, 9, ["Gross Description".data], some "exclude",
             some "CLINICAL DATA".data⟩)) 9).isSome = true
    ∧ extractLoop "Diagnosis: foo CLINICAL DATA bar Gross Description".data
        [⟨"Diagnosis".data, 9, ["Gross Description".data], some "exclude",
          some "CLINICAL DATA".data⟩] 0
      = extractLoop "Diagnosis: foo CLINICAL DATA bar Gross Description".data [] 0 :=
  ⟨by decide, claim_C6 _ _ _ _ _ (by decide) rfl rfl (by decide)⟩

/-- C7: whenever the segment sweep emits zero segments, `extract_segments`
returns exactly one segment with section `"ENTIRE NOTE"` and text equal to
the whitespace-stripped input text. -/
theorem claim_C7 (text : List Char) (ms : List MatchRec)
    (h : extractLoop text ms 0 = []) :
    extract_segments text ms
      = [{ SECTION := "ENTIRE NOTE".data, SECTION_TEXT := pyStrip text }] := by
  simp [extract_segments, h]

/-- C7 witness: the suppressed-exclusion document from the spec example
emits zero segments, and the output is the single stripped
`"ENTIRE NOTE"` segment. -/
theorem claim_C7_witness :
    extractLoop " Diagnosis: foo CLINICAL DATA Gross Description ".data
      [⟨"Diagnosis".data, 10, ["Gross Description".data], some "exclude",
        some "CLINICAL DATA".data⟩] 0 = []
    ∧ extract_segments " Diagnosis: foo CLINICAL DATA Gross Description ".data
        [⟨"Diagnosis".data, 10, ["Gross Description".data], some "exclude",
          some "CLINICAL DATA".data⟩]
      = [{ SECTION := "ENTIRE NOTE".data
           SECTION_TEXT := pyStrip " Diagnosis: foo CLINICAL DATA Gross Description ".data }] :=
  ⟨by decide, claim_C7 _ _ (by decide)⟩

/-- C10: a rule with condition `"exclude"` but no `exclude_after` compiles
without error to a null exclude matcher (`compileOne` is total, so the
data-model requirement that `exclude_after` be set is not enforced), and on
any match carrying a null exclude matcher the sweep behaves exactly as if
the rule had no condition. -/
theorem claim_C10 (m : RawMapping) (hc : m.condition = some "exclude")
    (he : m.exclude_after = none) :
    (compileOne m).exclude_regex = none
    ∧ ∀ (text : List Char) (mr : MatchRec) (rest : List MatchRec) (cur : Nat),
        mr.exclude_regex = none →
        extractLoop text (mr :: rest) cur
          = extractLoop text ({ mr with condition := none } :: rest) cur := by
  constructor
  · simp [compileOne, he]
  · intro text mr rest cur hmr
    have h1 : skipByExclude text mr (endPosOf text mr) = false := by
      simp [skipByExclude, hmr]
    have h2 : skipByExclude text ({ mr with condition := none })
        (endPosOf text ({ mr with condition := none })) = false := by
      simp [skipByExclude]
    simp only [extractLoop]
    by_cases hlt : mr.start_pos < cur
    · rw [if_pos hlt, if_pos (show ({ mr with condition := none } : MatchRec).start_pos < cur
        from hlt)]
    · have h3 : endPosOf text ({ mr with condition := none }) = endPosOf text mr := rfl
      rw [if_neg hlt, if_neg (show ¬ ({ mr with condition := none } : MatchRec).start_pos < cur
        from hlt), h1, h2]
      simp [h3]

/-- C10 witness: the rule `{start:"X", end:["Y"], condition:"exclude"}`
without `exclude_after`, applied on the text `"Xab"`. -/
theorem claim_C10_witness :
    ((compileOne ⟨"X".data, ["Y".data], some "exclude", none⟩).exclude_regex = none)
    ∧ extractLoop "Xab".data
        [mkMatchRec (compileOne ⟨"X".data, ["Y".data], some "exclude", none⟩) 0] 0
      = extractLoop "Xab".data [(⟨"X".data, 1, ["Y".data], none, none⟩ : MatchRec)] 0 :=
  ⟨(claim_C10 ⟨"X".data, ["Y".data], some "exclude", none⟩ rfl rfl).1,
   (claim_C10 ⟨"X".data, ["Y".data], some "exclude", none⟩ rfl rfl).2
     "Xab".data _ [] 0 rfl⟩

/-! ## Lemmas about `dedupByKey` -/

theorem mem_of_mem_dedupByKeyAux [DecidableEq κ] (key : α → κ) :
    ∀ (fuel : Nat) (l : List α) (x : α), x ∈ dedupByKeyAux key fuel l → x ∈ l := by
  intro fuel
  induction fuel with
  | zero => intro l x hx; cases l <;> simp [dedupByKeyAux] at hx
  | succ n ih =>
    intro l x hx
    cases l with
    | nil => simp [dedupByKeyAux] at hx
    | cons a as =>
      simp only [dedupByKeyAux] at hx
      rcases List.mem_cons.mp hx with h | h
      · exact h ▸ List.mem_cons_self a as
      · exact List.mem_cons_of_mem a (List.mem_filter.mp (ih _ _ h)).1

theorem mem_of_mem_dedupByKey [DecidableEq κ] (key : α → κ) (l : List α) (x : α)
    (h : x ∈ dedupByKey key l) : x ∈ l :=
  mem_of_mem_dedupByKeyAux key l.length l x h

theorem dedupByKeyAux_exists_rep [DecidableEq κ] (key : α → κ) :
    ∀ (fuel : Nat) (l : List α), l.length ≤ fuel → ∀ x ∈ l,
      ∃ r ∈ dedupByKeyAux key fuel l, key r = key x := by
  intro fuel
  induction fuel with
  | zero =>
    intro l hl x hx
    rw [Nat.le_zero, List.length_eq_zero] at hl
    subst hl; simp at hx
  | succ n ih =>
    intro l hl x hx
    cases l with
    | nil => simp at hx
    | cons a as =>
      rcases List.mem_cons.mp hx with h | h
      · exact ⟨a, by simp [dedupByKeyAux], by rw [h]⟩
      · by_cases hk : key x = key a
        · exact ⟨a, by simp [dedupByKeyAux], hk.symm⟩
        · have hxf : x ∈ as.filter (fun y => decide ¬(key y = key a)) :=
            List.mem_filter.mpr ⟨h, by simpa using hk⟩
          have hlen : (as.filter (fun y => decide ¬(key y = key a))).length ≤ n :=
            Nat.le_trans (List.length_filter_le _ _)
              (Nat.succ_le_succ_iff.mp (by simpa using hl))
          obtain ⟨r, hr, hkr⟩ := ih _ hlen x hxf
          refine ⟨r, ?_, hkr⟩
          simp only [dedupByKeyAux, List.mem_cons]
          exact Or.inr hr

theorem dedupByKey_exists_rep [DecidableEq κ] (key : α → κ) (l : List α) (x : α)
    (hx : x ∈ l) : ∃ r ∈ dedupByKey key l, key r = key x :=
  dedupByKeyAux_exists_rep key l.length l (Nat.le_refl _) x hx

theorem dedupByKeyAux_min [DecidableEq κ] (key : α → κ) (P : α → α → Prop) :
    ∀ (fuel : Nat) (l : List α), l.length ≤ fuel → l.Pairwise P →
      ∀ r ∈ dedupByKeyAux key fuel l, ∀ x ∈ l, key x = key r → P r x ∨ r = x := by
  intro fuel
  induction fuel with
  | zero =>
    intro l hl _ r _ x hx _
    rw [Nat.le_zero, List.length_eq_zero] at hl
    subst hl; simp at hx
  | succ n ih =>
    intro l hl hp r hr x hx hk
    cases l with
    | nil => simp at hx
    | cons a as =>
      have hp' := List.pairwise_cons.mp hp
      simp only [dedupByKeyAux, List.mem_cons] at hr
      rcases hr with hra | hrt
      · subst hra
        rcases List.mem_cons.mp hx with hxa | hxs
        · exact Or.inr hxa.symm
        · exact Or.inl (hp'.1 x hxs)
      · have hrf := mem_of_mem_dedupByKeyAux key n _ r hrt
        have hrka : ¬ (key r = key a) := by
          have h2 := (List.mem_filter.mp hrf).2
          simpa using h2
        rcases List.mem_cons.mp hx with hxa | hxs
        · subst hxa; exact absurd hk.symm hrka
        · have hxf : x ∈ as.filter (fun y => decide ¬(key y = key a)) :=
            List.mem_filter.mpr ⟨hxs, by
              simp only [decide_eq_true_eq]
              intro hkk; exact hrka (hk.symm.trans hkk)⟩
          have hlen : (as.filter (fun y => decide ¬(key y = key a))).length ≤ n :=
            Nat.le_trans (List.length_filter_le _ _)
              (Nat.succ_le_succ_iff.mp (by simpa using hl))
          exact ih _ hlen (hp'.2.filter _) r hrt x hxf hk

theorem dedupByKey_min [DecidableEq κ] (key : α → κ) (P : α → α → Prop) (l : List α)
    (hp : l.Pairwise P) (r : α) (hr : r ∈ dedupByKey key l) (x : α) (hx : x ∈ l)
    (hk : key x = key r) : P r x ∨ r = x :=
  dedupByKeyAux_min key P l.length l (Nat.le_refl _) hp r hr x hx hk

/-! ## Lemmas about the treatment/diagnosis merge -/

theorem mem_mergeTxDx_dx {txs : List TxRow} {dxs : List DxRow} {row : TxDxRow}
    (hrow : row ∈ mergeTxDx txs dxs) {d : DxRow} (hd : row.dx = some d) :
    d ∈ dxs ∧ d.mrn = row.tx.mrn := by
  unfold mergeTxDx at hrow
  rw [List.mem_flatMap] at hrow
  obtain ⟨t, _, hin⟩ := hrow
  by_cases hemp : (dxs.filter (fun d2 => d2.mrn == t.mrn)).isEmpty = true
  · rw [if_pos hemp] at hin
    simp only [List.mem_singleton] at hin
    rw [hin] at hd
    simp at hd
  · rw [if_neg hemp] at hin
    rw [List.mem_map] at hin
    obtain ⟨d2, hd2, heq⟩ := hin
    subst heq
    simp only at hd
    injection hd with hd
    subst hd
    have h2 := List.mem_filter.mp hd2
    exact ⟨h2.1, by simpa using h2.2⟩

theorem mergeTxDx_filter_head (dxs : List DxRow) (k : Nat) :
    ∀ (txs : List TxRow) (h : TxDxRow),
      ((mergeTxDx txs dxs).filter (fun m => m.tx.mrn == k)).head? = some h →
      ∀ (d : DxRow), h.dx = some d →
        (dxs.filter (fun x => x.mrn == k)).head? = some d := by
  intro txs
  induction txs with
  | nil => intro h hh; simp [mergeTxDx] at hh
  | cons t ts ih =>
    intro h hh d hd
    rw [show mergeTxDx (t :: ts) dxs
        = (if (dxs.filter (fun d2 => d2.mrn == t.mrn)).isEmpty then
            [{ tx := t, dx := none, dxAge := none }]
          else (dxs.filter (fun d2 => d2.mrn == t.mrn)).map
            (fun d2 => { tx := t, dx := some d2, dxAge := ageYears d2.diagnosisDate t.birth }))
          ++ mergeTxDx ts dxs from rfl, List.filter_append] at hh
    by_cases hmrn : (t.mrn == k) = true
    · have hkeq : t.mrn = k := by simpa using hmrn
      by_cases hemp : (dxs.filter (fun d2 => d2.mrn == t.mrn)).isEmpty = true
      · rw [if_pos hemp] at hh
        simp only [List.filter_cons, List.filter_nil] at hh
        rw [show (({ tx := t, dx := none, dxAge := none } : TxDxRow).tx.mrn == k) = true
          from hmrn] at hh
        simp only [if_pos] at hh
        rw [List.cons_append, List.head?_cons] at hh
        injection hh with hh
        rw [← hh] at hd
        simp at hd
      · rw [if_neg hemp] at hh
        cases hms : dxs.filter (fun d2 => d2.mrn == t.mrn) with
        | nil => rw [hms] at hemp; simp at hemp
        | cons d0 ds =>
          rw [hms] at hh
          simp only [List.map_cons, List.filter_cons] at hh
          rw [show (({ tx := t, dx := some d0, dxAge := ageYears d0.diagnosisDate t.birth }
              : TxDxRow).tx.mrn == k) = true from hmrn] at hh
          simp only [if_pos, List.cons_append, List.head?_cons] at hh
          injection hh with hh
          rw [← hh] at hd
          simp only at hd
          injection hd with hd
          subst hd
          rw [← hkeq, hms]
          rfl
    · have hfilt : ∀ (l : List TxDxRow), (∀ y ∈ l, y.tx.mrn = t.mrn) →
          l.filter (fun m => m.tx.mrn == k) = [] := by
        intro l hl
        rw [List.filter_eq_nil_iff]
        intro y hy
        rw [hl y hy]
        simpa using hmrn
      by_cases hemp : (dxs.filter (fun d2 => d2.mrn == t.mrn)).isEmpty = true
      · rw [if_pos hemp, hfilt _ (by intro y hy; simp at hy; rw [hy]),
          List.nil_append] at hh
        exact ih h hh d hd
      · rw [if_neg hemp, hfilt _ (by
          intro y hy
          rw [List.mem_map] at hy
          obtain ⟨d2, _, heq⟩ := hy
          rw [← heq]), List.nil_append] at hh
        exact ih h hh d hd

/-- Structural trace of a row of `find_notes_after_diagnosis`: every output
row comes from a patient group key `k`, carries the group's first merged row
as its diagnosis side, and carries as its note the first note (in input row
order) of patient `k` whose event date is at or after some diagnosis date
`dd` appearing in a row of the group. -/
theorem findDx_trace (dfNotes : List NoteRow) (dfTx : List TxRow) (dfDx : List DxRow)
    (cutoff : Int) (r : DxFinalRow)
    (hr : r ∈ find_notes_after_diagnosis dfNotes dfTx dfDx cutoff) :
    ∃ (k : Nat) (row : TxDxRow) (d : DxRow) (dd : Int),
      ((mergeTxDx dfTx dfDx).filter (fun m => m.tx.mrn == k)).head? = some r.dxHead
      ∧ row ∈ (mergeTxDx dfTx dfDx).filter (fun m => m.tx.mrn == k)
      ∧ row.dx = some d ∧ d.diagnosisDate = some dd
      ∧ ((dfNotes.filter (fun n => n.mrn == k)).filter (fun n => eventGE n dd)).head?
          = some r.note
      ∧ r.dxHead.tx.mrn = k ∧ r.note.mrn = k ∧ r.noteType = "first after dx" := by
  unfold find_notes_after_diagnosis at hr
  rw [List.mem_map] at hr
  obtain ⟨tr, htr, hmk⟩ := hr
  have htr2 := mem_of_mem_dedupByKey _ _ _ htr
  have htr3 := (List.mem_filter.mp htr2).1
  rw [List.mem_map] at htr3
  obtain ⟨pr, hpr, hdays⟩ := htr3
  unfold dxSelections at hpr
  rw [List.mem_flatMap] at hpr
  obtain ⟨g, hg, hging⟩ := hpr
  unfold groupByMrn at hg
  rw [List.mem_map] at hg
  obtain ⟨k, _, hgk⟩ := hg
  subst hgk
  by_cases hcont : ((dfNotes.map (fun n => n.mrn)).contains k) = true
  case neg =>
    rw [if_neg hcont] at hging
    simp at hging
  rw [if_pos hcont] at hging
  simp only at hging
  cases hgrp : (mergeTxDx dfTx dfDx).filter (fun r2 => r2.tx.mrn == k) with
  | nil => rw [hgrp] at hging; simp at hging
  | cons h0 hs =>
    rw [hgrp] at hging
    simp only [List.mem_filterMap] at hging
    obtain ⟨row, hrow, hopt⟩ := hging
    revert hopt
    cases hdx : row.dx with
    | none => intro hopt; simp at hopt
    | some d =>
      dsimp only
      cases hddate : d.diagnosisDate with
      | none => intro hopt; simp at hopt
      | some dd =>
        dsimp only
        cases hhead : ((dfNotes.filter (fun n => n.mrn == k)).filter
            (fun n => eventGE n dd)).head? with
        | none => intro hopt; simp at hopt
        | some fn =>
          dsimp only
          intro hopt
          simp only [Option.some.injEq] at hopt
          have hdxh : r.dxHead = h0 := by rw [← hmk, ← hdays, ← hopt]; rfl
          have hnote : r.note = fn := by rw [← hmk, ← hdays, ← hopt]; rfl
          have hnt : r.noteType = "first after dx" := by rw [← hmk]
          have hh0 : h0 ∈ (mergeTxDx dfTx dfDx).filter (fun r2 => r2.tx.mrn == k) := by
            rw [hgrp]; exact List.mem_cons_self _ _
          have hfnmem : fn ∈ dfNotes.filter (fun n => n.mrn == k) := by
            have := List.head?_eq_some_iff.mp hhead
            obtain ⟨ys, hys⟩ := this
            have : fn ∈ (dfNotes.filter (fun n => n.mrn == k)).filter
                (fun n => eventGE n dd) := by
              rw [hys]; exact List.mem_cons_self _ _
            exact (List.mem_filter.mp this).1
          refine ⟨k, row, d, dd, ?_, by rw [hgrp]; exact hrow, hdx, hddate,
            by rw [hnote]; exact hhead, ?_, ?_, hnt⟩
          · rw [hgrp, hdxh]; rfl
          · rw [hdxh]
            have := (List.mem_filter.mp hh0).2
            simpa using this
          · rw [hnote]
            have := (List.mem_filter.mp hfnmem).2
            simpa using this

/-! ## Claim theorems: timeline alignment (diagnosis) -/

/-- C4 (counterexample): with the patient's notes in input row order
`[eventDate 32, eventDate 15]` and diagnosis date 10, the alignment emits
the note dated 32 — the first *row* with `eventDate >= 10` — although the
note dated 15 also qualifies and is the earliest; so the selected note is
not the one with the earliest event date. -/
theorem claim_C4_counterexample :
    (find_notes_after_diagnosis [⟨1, some 32, "feb"⟩, ⟨1, some 15, "jan15"⟩]
      [⟨1, "chemo", some 0, some 0⟩] [⟨1, some 10⟩] 0).map (fun r => r.note.eventDate)
      = [some 32]
    ∧ eventGE ⟨1, some 15, "jan15"⟩ 10 = true
    ∧ (15 : Int) < 32 := by
  refine ⟨by decide, by decide, by decide⟩

/-- C4 (amended): for every patient and diagnosis date, the after-diagnosis
alignment selects the *first note in input row order* among that patient's
notes satisfying `eventDate >= diagnosisDate` (which is the earliest-dated
note exactly when the notes table is sorted ascending by event date, as in
the spec's example), and emits no row for a patient/diagnosis with no
qualifying note: every emitted row's note is the head of the filtered
note list for one of that patient's diagnosis dates. -/
theorem claim_C4_amended (dfNotes : List NoteRow) (dfTx : List TxRow)
    (dfDx : List DxRow) (cutoff : Int) :
    ∀ r ∈ find_notes_after_diagnosis dfNotes dfTx dfDx cutoff,
      ∃ dd : Int,
        (∃ dxr ∈ dfDx, dxr.mrn = r.note.mrn ∧ dxr.diagnosisDate = some dd)
        ∧ ((dfNotes.filter (fun n => n.mrn == r.note.mrn)).filter
            (fun n => eventGE n dd)).head? = some r.note := by
  intro r hr
  obtain ⟨k, row, d, dd, _, hrowmem, hdx, hddate, hnote, _, hmrn2, _⟩ :=
    findDx_trace dfNotes dfTx dfDx cutoff r hr
  have hrow2 := List.mem_filter.mp hrowmem
  have hrowmrn : row.tx.mrn = k := by simpa using hrow2.2
  obtain ⟨hdmem, hdmrn⟩ := mem_mergeTxDx_dx hrow2.1 hdx
  refine ⟨dd, ⟨d, hdmem, ?_, hddate⟩, ?_⟩
  · rw [hdmrn, hrowmrn, hmrn2]
  · rw [hmrn2]
    exact hnote

/-- C4 witness: the spec's example — notes at days 5, 15, 32 in ascending
row order, diagnosis at day 10 — where the emitted row's note (day 15) is
the head of the qualifying filtered list. -/
theorem claim_C4_witness :
    (⟨⟨⟨1, "chemo", some 0, some 0⟩, some ⟨1, some 10⟩, some 0⟩,
        ⟨1, some 15, "b"⟩, some 5, "first after dx"⟩ : DxFinalRow)
      ∈ find_notes_after_diagnosis
        [⟨1, some 5, "a"⟩, ⟨1, some 15, "b"⟩, ⟨1, some 32, "c"⟩]
        [⟨1, "chemo", some 0, some 0⟩] [⟨1, some 10⟩] 0
    ∧ ∃ dd : Int,
        (∃ dxr ∈ ([⟨1, some 10⟩] : List DxRow), dxr.mrn = 1 ∧ dxr.diagnosisDate = some dd)
        ∧ ((([⟨1, some 5, "a"⟩, ⟨1, some 15, "b"⟩, ⟨1, some 32, "c"⟩]
              : List NoteRow).filter (fun n => n.mrn == 1)).filter
            (fun n => eventGE n dd)).head? = some ⟨1, some 15, "b"⟩ :=
  ⟨by decide,
   claim_C4_amended [⟨1, some 5, "a"⟩, ⟨1, some 15, "b"⟩, ⟨1, some 32, "c"⟩]
     [⟨1, "chemo", some 0, some 0⟩] [⟨1, some 10⟩] 0
     ⟨⟨⟨1, "chemo", some 0, some 0⟩, some ⟨1, some 10⟩, some 0⟩,
       ⟨1, some 15, "b"⟩, some 5, "first after dx"⟩ (by decide)⟩

/-- C9: every emitted row of the after-diagnosis alignment carries as its
diagnosis side the *first* merged treatment-diagnosis row of that patient —
`dx_group.iloc[0]`, including its diagnosis date and `DX_AGE` fields —
regardless of which diagnosis date the iteration matched the note against;
its diagnosis record is the patient's first diagnosis row in input order. -/
theorem claim_C9 (dfNotes : List NoteRow) (dfTx : List TxRow)
    (dfDx : List DxRow) (cutoff : Int) :
    ∀ r ∈ find_notes_after_diagnosis dfNotes dfTx dfDx cutoff,
      ((mergeTxDx dfTx dfDx).filter (fun m => m.tx.mrn == r.dxHead.tx.mrn)).head?
        = some r.dxHead
      ∧ ∀ d0 : DxRow, r.dxHead.dx = some d0 →
          (dfDx.filter (fun x => x.mrn == r.dxHead.tx.mrn)).head? = some d0 := by
  intro r hr
  obtain ⟨k, _, _, _, hhead, _, _, _, _, hmrn1, _, _⟩ :=
    findDx_trace dfNotes dfTx dfDx cutoff r hr
  constructor
  · rw [hmrn1]
    exact hhead
  · intro d0 hd0
    rw [hmrn1]
    exact mergeTxDx_filter_head dfDx k dfTx r.dxHead hhead d0 hd0

/-- C9 witness: a patient with two diagnosis rows (days 10 and 20) and one
note (day 25): the emitted row matched against either date still carries the
first diagnosis row (day 10) on its diagnosis side. -/
theorem claim_C9_witness :
    (⟨⟨⟨1, "chemo", some 0, some 0⟩, some ⟨1, some 10⟩, some 0⟩,
        ⟨1, some 25, "n"⟩, some 15, "first after dx"⟩ : DxFinalRow)
      ∈ find_notes_after_diagnosis [⟨1, some 25, "n"⟩]
        [⟨1, "chemo", some 0, some 0⟩] [⟨1, some 10⟩, ⟨1, some 20⟩] 0
    ∧ ((mergeTxDx [⟨1, "chemo", some 0, some 0⟩] [⟨1, some 10⟩, ⟨1, some 20⟩]).filter
        (fun m => m.tx.mrn == 1)).head?
        = some ⟨⟨1, "chemo", some 0, some 0⟩, some ⟨1, some 10⟩, some 0⟩
    ∧ (([⟨1, some 10⟩, ⟨1, some 20⟩] : List DxRow).filter (fun x => x.mrn == 1)).head?
        = some ⟨1, some 10⟩ :=
  ⟨by decide,
   (claim_C9 [⟨1, some 25, "n"⟩] [⟨1, "chemo", some 0, some 0⟩]
      [⟨1, some 10⟩, ⟨1, some 20⟩] 0
      ⟨⟨⟨1, "chemo", some 0, some 0⟩, some ⟨1, some 10⟩, some 0⟩,
        ⟨1, some 25, "n"⟩, some 15, "first after dx"⟩ (by decide)).1,
   (claim_C9 [⟨1, some 25, "n"⟩] [⟨1, "chemo", some 0, some 0⟩]
      [⟨1, some 10⟩, ⟨1, some 20⟩] 0
      ⟨⟨⟨1, "chemo", some 0, some 0⟩, some ⟨1, some 10⟩, some 0⟩,
        ⟨1, some 25, "n"⟩, some 15, "first after dx"⟩ (by decide)).2
     ⟨1, some 10⟩ rfl⟩

/-! ## Lemmas about the stable sort -/

theorem mem_insSorted (le : α → α → Bool) (x a : α) :
    ∀ l : List α, (a ∈ insSorted le x l ↔ a = x ∨ a ∈ l) := by
  intro l
  induction l with
  | nil => simp [insSorted]
  | cons y ys ih =>
    simp only [insSorted]
    by_cases h : le x y = true
    · rw [if_pos h]; simp [List.mem_cons]
    · rw [if_neg h]
      simp only [List.mem_cons, ih]
      tauto

theorem mem_sortBy (le : α → α → Bool) (a : α) :
    ∀ l : List α, (a ∈ sortBy le l ↔ a ∈ l) := by
  intro l
  induction l with
  | nil => simp [sortBy]
  | cons y ys ih =>
    simp only [sortBy, mem_insSorted, List.mem_cons, ih]

theorem pairwise_insSorted (le : α → α → Bool)
    (htot : ∀ a b, (le a b || le b a) = true)
    (htrans : ∀ a b c, le a b = true → le b c = true → le a c = true)
    (x : α) :
    ∀ l : List α, l.Pairwise (fun a b => le a b = true) →
      (insSorted le x l).Pairwise (fun a b => le a b = true) := by
  intro l
  induction l with
  | nil => intro _; simp [insSorted]
  | cons y ys ih =>
    intro hp
    have hp' := List.pairwise_cons.mp hp
    simp only [insSorted]
    by_cases hxy : le x y = true
    · rw [if_pos hxy, List.pairwise_cons]
      refine ⟨?_, hp⟩
      intro b hb
      rcases List.mem_cons.mp hb with rfl | hbys
      · exact hxy
      · exact htrans x y b hxy (hp'.1 b hbys)
    · rw [if_neg hxy, List.pairwise_cons]
      have hyx : le y x = true := by
        rcases Bool.or_eq_true_iff.mp (htot x y) with h | h
        · exact absurd h hxy
        · exact h
      refine ⟨?_, ih hp'.2⟩
      intro b hb
      rcases (mem_insSorted le x b ys).mp hb with rfl | hbys
      · exact hyx
      · exact hp'.1 b hbys

theorem pairwise_sortBy (le : α → α → Bool)
    (htot : ∀ a b, (le a b || le b a) = true)
    (htrans : ∀ a b c, le a b = true → le b c = true → le a c = true) :
    ∀ l : List α, (sortBy le l).Pairwise (fun a b => le a b = true) := by
  intro l
  induction l with
  | nil => simp [sortBy]
  | cons y ys ih => exact pairwise_insSorted le htot htrans y _ ih

/-! ## The total preorder used by the treatment sort -/

theorem optIntLe_refl (a : Option Int) : optIntLe a a = true := by
  cases a <;> simp [optIntLe]

theorem optIntLe_total (a b : Option Int) : (optIntLe a b || optIntLe b a) = true := by
  cases a <;> cases b <;> simp [optIntLe] <;> omega

theorem optIntLe_trans (a b c : Option Int) (h1 : optIntLe a b = true)
    (h2 : optIntLe b c = true) : optIntLe a c = true := by
  cases a <;> cases b <;> cases c <;> simp [optIntLe] at * <;> omega

theorem optIntLt_irrefl (a : Option Int) : optIntLt a a = false := by
  cases a <;> simp [optIntLt]

theorem optIntLt_trans (a b c : Option Int) (h1 : optIntLt a b = true)
    (h2 : optIntLt b c = true) : optIntLt a c = true := by
  cases a <;> cases b <;> cases c <;> simp [optIntLt] at * <;> omega

theorem optIntLt_trichotomy (a b : Option Int) :
    optIntLt a b = true ∨ optIntLt b a = true ∨ a = b := by
  cases a <;> cases b <;> simp [optIntLt] <;> omega

theorem charListLt_irrefl : ∀ s : List Char, charListLt s s = false := by
  intro s
  induction s with
  | nil => rfl
  | cons a as ih => simp [charListLt, ih]

theorem charListLt_trans : ∀ s t u : List Char, charListLt s t = true →
    charListLt t u = true → charListLt s u = true := by
  intro s
  induction s with
  | nil =>
    intro t u hst htu
    cases t with
    | nil => simp [charListLt] at hst
    | cons b bs =>
      cases u with
      | nil => simp [charListLt] at htu
      | cons c cs => simp [charListLt]
  | cons a as ih =>
    intro t u hst htu
    cases t with
    | nil => simp [charListLt] at hst
    | cons b bs =>
      cases u with
      | nil => simp [charListLt] at htu
      | cons c cs =>
        simp only [charListLt, Bool.or_eq_true, Bool.and_eq_true,
          decide_eq_true_eq, beq_iff_eq] at hst htu ⊢
        rcases hst with h1 | ⟨he1, h1⟩
        · rcases htu with h2 | ⟨he2, h2⟩
          · exact Or.inl (lt_trans h1 h2)
          · exact Or.inl (he2 ▸ h1)
        · rcases htu with h2 | ⟨he2, h2⟩
          · exact Or.inl (he1 ▸ h2)
          · exact Or.inr ⟨he1.trans he2, ih bs cs h1 h2⟩

theorem charListLt_trichotomy : ∀ s t : List Char,
    charListLt s t = true ∨ charListLt t s = true ∨ s = t := by
  intro s
  induction s with
  | nil =>
    intro t
    cases t with
    | nil => exact Or.inr (Or.inr rfl)
    | cons b bs => exact Or.inl (by simp [charListLt])
  | cons a as ih =>
    intro t
    cases t with
    | nil => exact Or.inr (Or.inl (by simp [charListLt]))
    | cons b bs =>
      rcases lt_trichotomy a b with h | h | h
      · exact Or.inl (by simp [charListLt, h])
      · subst h
        rcases ih bs with h2 | h2 | h2
        · exact Or.inl (by simp [charListLt, h2])
        · exact Or.inr (Or.inl (by simp [charListLt, h2]))
        · exact Or.inr (Or.inr (by rw [h2]))
      · exact Or.inr (Or.inl (by simp [charListLt, h]))

theorem keyLt_irrefl (j : Nat × String × Option Int) : keyLt j j = false := by
  simp [keyLt, charListLt_irrefl, optIntLt_irrefl]

theorem keyLt_trans (i j k : Nat × String × Option Int) (h1 : keyLt i j = true)
    (h2 : keyLt j k = true) : keyLt i k = true := by
  simp only [keyLt, Bool.or_eq_true, Bool.and_eq_true, decide_eq_true_eq] at h1 h2 ⊢
  rcases h1 with h1 | ⟨hn1, h1⟩
  · rcases h2 with h2 | ⟨hn2, _⟩
    · exact Or.inl (Nat.lt_trans h1 h2)
    · exact Or.inl (hn2 ▸ h1)
  · rcases h2 with h2 | ⟨hn2, h2⟩
    · exact Or.inl (hn1 ▸ h2)
    · refine Or.inr ⟨hn1.trans hn2, ?_⟩
      rcases h1 with h1 | ⟨hs1, h1⟩
      · rcases h2 with h2 | ⟨hs2, _⟩
        · exact Or.inl (charListLt_trans _ _ _ h1 h2)
        · exact Or.inl (hs2 ▸ h1)
      · rcases h2 with h2 | ⟨hs2, h2⟩
        · exact Or.inl (hs1 ▸ h2)
        · exact Or.inr ⟨hs1.trans hs2, optIntLt_trans _ _ _ h1 h2⟩

theorem string_eq_of_data_eq {s t : String} (h : s.data = t.data) : s = t :=
  congrArg String.mk h

theorem keyLt_trichotomy (j k : Nat × String × Option Int) :
    keyLt j k = true ∨ keyLt k j = true ∨ j = k := by
  obtain ⟨j1, j2, j3⟩ := j
  obtain ⟨k1, k2, k3⟩ := k
  rcases Nat.lt_trichotomy j1 k1 with h | h | h
  · exact Or.inl (by simp [keyLt, h])
  · subst h
    rcases charListLt_trichotomy j2.data k2.data with h2 | h2 | h2
    · exact Or.inl (by simp [keyLt, h2])
    · exact Or.inr (Or.inl (by simp [keyLt, h2]))
    · have hs : j2 = k2 := string_eq_of_data_eq h2
      subst hs
      rcases optIntLt_trichotomy j3 k3 with h3 | h3 | h3
      · exact Or.inl (by simp [keyLt, h3])
      · exact Or.inr (Or.inl (by simp [keyLt, h3]))
      · exact Or.inr (Or.inr (by rw [h3]))
  · exact Or.inr (Or.inl (by simp [keyLt, h]))

theorem lexLeBy_total (dist : TxNoteRow → Option Int) (a b : TxNoteRow) :
    (lexLeBy dist a b || lexLeBy dist b a) = true := by
  rcases keyLt_trichotomy (keyOf a) (keyOf b) with h | h | h
  · simp [lexLeBy, h]
  · simp [lexLeBy, h]
  · rcases Bool.or_eq_true_iff.mp (optIntLe_total (dist a) (dist b)) with hle | hle
    · have hab : lexLeBy dist a b = true := by
        simp [lexLeBy, h, keyLt_irrefl, hle]
      simp [hab]
    · have hba : lexLeBy dist b a = true := by
        simp [lexLeBy, h.symm, keyLt_irrefl, hle]
      simp [hba]

theorem lexLeBy_trans (dist : TxNoteRow → Option Int) (a b c : TxNoteRow)
    (h1 : lexLeBy dist a b = true) (h2 : lexLeBy dist b c = true) :
    lexLeBy dist a c = true := by
  simp only [lexLeBy, Bool.or_eq_true, Bool.and_eq_true, decide_eq_true_eq] at h1 h2 ⊢
  rcases h1 with h1 | ⟨hk1, h1⟩
  · rcases h2 with h2 | ⟨hk2, _⟩
    · exact Or.inl (keyLt_trans _ _ _ h1 h2)
    · exact Or.inl (hk2 ▸ h1)
  · rcases h2 with h2 | ⟨hk2, h2⟩
    · exact Or.inl (hk1 ▸ h2)
    · exact Or.inr ⟨hk1.trans hk2, optIntLe_trans _ _ _ h1 h2⟩

theorem lexLeBy_key_eq (dist : TxNoteRow → Option Int) (a b : TxNoteRow)
    (h : lexLeBy dist a b = true) (hk : keyOf a = keyOf b) :
    optIntLe (dist a) (dist b) = true := by
  simp only [lexLeBy, Bool.or_eq_true, Bool.and_eq_true, decide_eq_true_eq] at h
  rcases h with h | ⟨_, h⟩
  · rw [hk] at h
    rw [keyLt_irrefl] at h
    exact absurd h (by simp)
  · exact h

/-! ## Claim theorems: timeline alignment (treatment) -/

/-- C8: in the around-treatment alignment, (i) `days_post_tx` defaults to 60
when unspecified; (ii) every row kept by the `closest_start` selection has a
days-to-treatment-start distance that is present and `<= days_diff_wobble`,
and is the minimum-distance row of its
`(DFCI_MRN, TREATMENT, TPLAN_START_DT)` group; (iii) every group occurring
in the joined table contributes a row to the `closest_to_x_days` selection —
the closest note to `treatmentStart + days_post_tx` is always kept, with no
distance cutoff applied; (iv) the function's output is exactly the two
tagged selections concatenated. -/
theorem claim_C8 (dfNotes : List NoteRow) (dfTx : List TxRow) (dfDx : List DxRow)
    (w : Int) (postTx : Option Int) :
    find_notes_after_treatment dfNotes dfTx dfDx w none
      = find_notes_after_treatment dfNotes dfTx dfDx w (some 60)
    ∧ (∀ r ∈ closest_start w (mergeTxDxNotes dfTx dfDx dfNotes),
        (∃ d : Int, daysNoteToTxStart r = some d ∧ d ≤ w)
        ∧ ∀ s ∈ mergeTxDxNotes dfTx dfDx dfNotes, keyOf s = keyOf r →
            optIntLe (daysNoteToTxStart r) (daysNoteToTxStart s) = true)
    ∧ (∀ s ∈ mergeTxDxNotes dfTx dfDx dfNotes,
        ∃ r ∈ closest_to_x_days (postTxDays postTx) (mergeTxDxNotes dfTx dfDx dfNotes),
          keyOf r = keyOf s
          ∧ ∀ t ∈ mergeTxDxNotes dfTx dfDx dfNotes, keyOf t = keyOf s →
              optIntLe (distToXDays (postTxDays postTx) r)
                (distToXDays (postTxDays postTx) t) = true)
    ∧ find_notes_after_treatment dfNotes dfTx dfDx w postTx
        = (closest_start w (mergeTxDxNotes dfTx dfDx dfNotes)).map
            (fun r => { row := r
                        noteType := "within +/- " ++ toString w ++ " days of tx" })
          ++ (closest_to_x_days (postTxDays postTx) (mergeTxDxNotes dfTx dfDx dfNotes)).map
            (fun r => { row := r
                        noteType := "closest to " ++ toString (postTxDays postTx)
                          ++ " days since tx" }) := by
  refine ⟨rfl, ?_, ?_, rfl⟩
  · intro r hr
    unfold closest_start at hr
    have hr1 := List.mem_filter.mp hr
    constructor
    · have hp := hr1.2
      revert hp
      cases hd : daysNoteToTxStart r with
      | none => intro hp; simp at hp
      | some d => intro hp; exact ⟨d, rfl, by simpa using hp⟩
    · intro s hs hk
      have hsorted := pairwise_sortBy (lexLeBy daysNoteToTxStart)
        (lexLeBy_total _) (lexLeBy_trans _) (mergeTxDxNotes dfTx dfDx dfNotes)
      have hs2 := (mem_sortBy (lexLeBy daysNoteToTxStart) s
        (mergeTxDxNotes dfTx dfDx dfNotes)).mpr hs
      rcases dedupByKey_min keyOf _ _ hsorted r hr1.1 s hs2 hk with hP | heq
      · exact lexLeBy_key_eq _ _ _ hP hk.symm
      · rw [heq]; exact optIntLe_refl _
  · intro s hs
    have hs2 := (mem_sortBy (lexLeBy (distToXDays (postTxDays postTx))) s
      (mergeTxDxNotes dfTx dfDx dfNotes)).mpr hs
    obtain ⟨r, hrd, hkr⟩ := dedupByKey_exists_rep keyOf _ s hs2
    refine ⟨r, hrd, hkr, ?_⟩
    intro t ht hk2
    have hsorted := pairwise_sortBy (lexLeBy (distToXDays (postTxDays postTx)))
      (lexLeBy_total _) (lexLeBy_trans _) (mergeTxDxNotes dfTx dfDx dfNotes)
    have ht2 := (mem_sortBy (lexLeBy (distToXDays (postTxDays postTx))) t
      (mergeTxDxNotes dfTx dfDx dfNotes)).mpr ht
    rcases dedupByKey_min keyOf _ _ hsorted r hrd t ht2 (hk2.trans hkr.symm) with hP | heq
    · exact lexLeBy_key_eq _ _ _ hP (hkr.trans hk2.symm)
    · rw [heq]; exact optIntLe_refl _

/-- C8 witness: one patient, treatment start day 0, notes at days -10 and 2,
wobble 7, `days_post_tx` unspecified (so 60): the group contributes a
closest-to-60-days row with no cutoff applied. -/
theorem claim_C8_witness :
    (⟨⟨1, "chemo", some 0, some 0⟩, none, some ⟨1, some (-10), "early"⟩, some 0⟩ : TxNoteRow)
      ∈ mergeTxDxNotes [⟨1, "chemo", some 0, some 0⟩] []
          [⟨1, some (-10), "early"⟩, ⟨1, some 2, "near"⟩]
    ∧ ∃ r ∈ closest_to_x_days 60
          (mergeTxDxNotes [⟨1, "chemo", some 0, some 0⟩] []
            [⟨1, some (-10), "early"⟩, ⟨1, some 2, "near"⟩]),
        keyOf r = keyOf (⟨⟨1, "chemo", some 0, some 0⟩, none,
            some ⟨1, some (-10), "early"⟩, some 0⟩ : TxNoteRow)
        ∧ ∀ t ∈ mergeTxDxNotes [⟨1, "chemo", some 0, some 0⟩] []
              [⟨1, some (-10), "early"⟩, ⟨1, some 2, "near"⟩],
            keyOf t = keyOf (⟨⟨1, "chemo", some 0, some 0⟩, none,
                some ⟨1, some (-10), "early"⟩, some 0⟩ : TxNoteRow) →
              optIntLe (distToXDays 60 r) (distToXDays 60 t) = true :=
  ⟨by decide,
   (claim_C8 [⟨1, some (-10), "early"⟩, ⟨1, some 2, "near"⟩]
      [⟨1, "chemo", some 0, some 0⟩] [] 7 none).2.2.1
     ⟨⟨1, "chemo", some 0, some 0⟩, none, some ⟨1, some (-10), "early"⟩, some 0⟩
     (by decide)⟩

end Rheelab
